import Mathlib

/-!
Verification of the query-execution and relevance-scoring core of the
tantivy fork, together with its mmap-cache storage layer.

The development shallowly embeds:
- the phrase-matching semantics (modelled from the spec, since only the
  test module of the phrase query is present in the source tree),
- the term weight scorer construction (src/query/term_query/term_weight.rs),
- the mmap cache and the S3 directory operations
  (src/directory/s3_directory.rs).

Machine floats are modelled over the rationals; the idf computation carries
exact binary32 semantics (round to nearest, ties to even) so that f32
rounding behaviour is preserved.
-/

/-! ### Phrase matching model -/

/-- Splits a character list into whitespace-separated tokens.
Accumulator holds the current token reversed. -/
def splitTokens : List Char → List Char → List String
  | [], acc => if acc.isEmpty then [] else [String.mk acc.reverse]
  | c :: cs, acc =>
      if c = ' ' then
        if acc.isEmpty then splitTokens cs []
        else String.mk acc.reverse :: splitTokens cs []
      else splitTokens cs (c :: acc)

/-- Modelled from the spec: tokenization is an external collaborator of the
core; a document is the sequence of its whitespace-separated tokens. -/
def tokenize (s : String) : List String := splitTokens s.data []

/-- Modelled from the spec: the position list of a term in a document is the
ordered sequence of zero-based token offsets at which the term occurs. -/
def positions (term : String) (doc : List String) : List Nat :=
  (List.range doc.length).filter (fun p => doc.get? p == some term)

/-- Modelled from the spec: a phrase occurrence exists at document position p
if, for every term i of the phrase, position p + i appears in that term's
position list for the document. -/
def phraseAt (terms : List String) (doc : List String) (p : Nat) : Bool :=
  terms.enum.all (fun it => (positions it.2 doc).contains (p + it.1))

/-- Modelled from the spec: the phrase frequency of a document is the number
of positions p at which a phrase occurrence exists. -/
def phraseFreq (terms : List String) (doc : List String) : Nat :=
  ((List.range doc.length).filter (fun p => phraseAt terms doc p)).length

/-- Modelled from the spec: a phrase query matches exactly the documents with
phrase frequency at least one; document ids are insertion order, results
ascending. -/
def phraseMatches (docs : List (List String)) (terms : List String) : List Nat :=
  docs.enum.filterMap (fun it => if 0 < phraseFreq terms it.2 then some it.1 else none)

/-- The five-document corpus of the first concrete scenario. -/
def corpus1 : List (List String) :=
  ["b b b d c g c", "a b b d c g c", "a b a b c", "c a b a d ga a", "a b c"].map tokenize

/-- The three-document corpus of the document-frequency-independence scenario. -/
def corpus2 : List (List String) :=
  ["b", "a b", "b a"].map tokenize

/-- C1: on the five-document corpus, phrase query [a,b,c] matches exactly
{2,4}, [a,b] matches {1,2,3,4}, [b,b] matches {0,1}, and both [g,ewrwer]
(ewrwer absent from the vocabulary) and [g,a] (never adjacent in that order)
match the empty set. -/
theorem phrase_query_concrete_five_docs :
    phraseMatches corpus1 ["a", "b", "c"] = [2, 4] ∧
    phraseMatches corpus1 ["a", "b"] = [1, 2, 3, 4] ∧
    phraseMatches corpus1 ["b", "b"] = [0, 1] ∧
    phraseMatches corpus1 ["g", "ewrwer"] = [] ∧
    corpus1.all (fun d => !(d.contains "ewrwer")) = true ∧
    phraseMatches corpus1 ["g", "a"] = [] := by
  decide

/-- C5: on the corpus [b, a b, b a], phrase query [a,b] matches exactly {1},
the reversed query [b,a] matches exactly {2}, and the two result sets are
disjoint. -/
theorem phrase_query_docfreq_order :
    phraseMatches corpus2 ["a", "b"] = [1] ∧
    phraseMatches corpus2 ["b", "a"] = [2] ∧
    (phraseMatches corpus2 ["a", "b"]).all
      (fun d => !((phraseMatches corpus2 ["b", "a"]).contains d)) = true := by
  decide

/-! ### Phrase weight construction (capability check) -/

/-- Index record options of the schema, as in the test setup. -/
inductive IndexRecordOption
  | basic
  | withFreqs
  | withFreqsAndPositions
deriving DecidableEq

/-- Error kinds surfaced by a search. -/
inductive SearchError
  | schemaError (msg : String)
  | ioError (msg : String)
deriving DecidableEq

/-- A posting entry: document id paired with the in-document position list. -/
structure PostingEntry where
  doc : Nat
  positionsOf : List Nat
deriving DecidableEq

/-- Result of phrase weight scorer construction. -/
inductive PhraseScorerResult
  | emptyScorer
  | phraseScorer (streams : List (List PostingEntry))
deriving DecidableEq

/-- Modelled from the spec: PhraseWeight scorer construction (the source file
of PhraseWeight is absent from the tree; only its tests are present). The
field indexing configuration is checked for position tracking before any
posting stream is touched; on failure a schema-capability error naming the
field is returned. Otherwise every term is looked up; if any term is absent
an EmptyScorer results, else a PhraseScorer over all opened streams. The
error message is the one pinned by the no-positions test. -/
def phraseWeightScorer (fieldName : String) (opt : IndexRecordOption)
    (readPostings : String → Option (List PostingEntry)) (terms : List String) :
    Except SearchError PhraseScorerResult :=
  if opt = IndexRecordOption.withFreqsAndPositions then
    match terms.mapM readPostings with
    | some streams => Except.ok (PhraseScorerResult.phraseScorer streams)
    | none => Except.ok PhraseScorerResult.emptyScorer
  else
    Except.error (SearchError.schemaError
      ("Applied phrase query on field \"" ++ fieldName ++
        "\", which does not have positions indexed"))

/-- C2: on a field whose indexing lacks position tracking, phrase scorer
construction fails synchronously with a schema error whose message names the
field as not having positions indexed; the result does not depend on the
posting streams (none is opened) and is never an Ok scorer. -/
theorem phrase_weight_no_positions_schema_error (fieldName : String)
    (opt : IndexRecordOption) (h : opt ≠ IndexRecordOption.withFreqsAndPositions)
    (readPostings : String → Option (List PostingEntry)) (terms : List String) :
    phraseWeightScorer fieldName opt readPostings terms =
      Except.error (SearchError.schemaError
        ("Applied phrase query on field \"" ++ fieldName ++
          "\", which does not have positions indexed")) := by
  simp [phraseWeightScorer, h]

/-- Witness for C2: the concrete no-positions test configuration (field
"text" indexed with frequencies only) yields exactly the pinned schema
error, for any posting lookup. -/
theorem phrase_weight_no_positions_schema_error_witness :
    phraseWeightScorer "text" IndexRecordOption.withFreqs (fun _ => none) ["a", "b"] =
      Except.error (SearchError.schemaError
        "Applied phrase query on field \"text\", which does not have positions indexed") :=
  phrase_weight_no_positions_schema_error "text" IndexRecordOption.withFreqs
    (by decide) (fun _ => none) ["a", "b"]

/-! ### Term weight (src/query/term_query/term_weight.rs) -/

/-- A term: field identifier and byte-string value. -/
structure Term where
  field : Nat
  text : String
deriving DecidableEq

/-- Options controlling how much posting data is requested. -/
inductive SegmentPostingsOption
  | NoFreq
  | Freq
  | FreqAndPositions
deriving DecidableEq

/-- A per-field reader of fieldnorm bytes, indexed by document id. -/
structure FieldNormReader where
  fieldnorm : Nat → Nat

/-- Segment postings for one term with frequency data:
ordered (document id, term frequency) pairs. -/
abbrev SegmentPostings := List (Nat × Nat)

/-- A segment reader: fieldnorm readers per field (fallible) and posting
lookup per term; a term absent from the vocabulary yields none. -/
structure SegmentReader where
  get_fieldnorms_reader : Nat → Except SearchError FieldNormReader
  read_postings : Term → SegmentPostingsOption → Option SegmentPostings

/-- The document frequency of a term in a segment: the number of documents in
its posting list, zero when the term is absent from the vocabulary. -/
def segmentDocFreq (reader : SegmentReader) (t : Term) : Nat :=
  match reader.read_postings t SegmentPostingsOption.Freq with
  | some sp => sp.length
  | none => 0

/-- The TermWeight of term_weight.rs: the term and its document frequency. -/
structure TermWeight where
  doc_freq : Nat
  term : Term

/-- Fuel-bounded floor base-2 logarithm; fuel n suffices for input n. -/
def log2fuel : Nat → Nat → Nat
  | 0, _ => 0
  | fuel + 1, n => if n ≤ 1 then 0 else log2fuel fuel (n / 2) + 1

/-- Floor base-2 logarithm of a positive natural number. -/
def natLog2 (n : Nat) : Nat := log2fuel n n

/-- Floor base-2 exponent of a positive rational: the unique e such that
2 ^ e ≤ q < 2 ^ (e + 1). -/
def qExp (q : ℚ) : ℤ :=
  if (2 : ℚ) ^ ((natLog2 q.num.natAbs : ℤ) - (natLog2 q.den : ℤ)) ≤ q then
    (natLog2 q.num.natAbs : ℤ) - (natLog2 q.den : ℤ)
  else (natLog2 q.num.natAbs : ℤ) - (natLog2 q.den : ℤ) - 1

/-- Rounds a rational to the nearest integer, ties to even. -/
def rni (x : ℚ) : ℤ :=
  if x - (⌊x⌋ : ℚ) < 1/2 then ⌊x⌋
  else if 1/2 < x - (⌊x⌋ : ℚ) then ⌊x⌋ + 1
  else if ⌊x⌋ % 2 = 0 then ⌊x⌋ else ⌊x⌋ + 1

/-- Rounds a positive rational to the nearest IEEE binary32 value: 24-bit
significand, round to nearest, ties to even. The exponent range is left
unbounded, which coincides with binary32 on the normal range — every value
arising from u32 document frequencies stays normal. Non-positive inputs map
to zero (never reached by the embedded code path). -/
def roundF32 (q : ℚ) : ℚ :=
  if q ≤ 0 then 0
  else (rni (q / 2 ^ (qExp q - 23)) : ℚ) * 2 ^ (qExp q - 23)

/-- Conversion of a u32 value to binary32, as in doc_freq as f32. -/
def u32_to_f32 (n : Nat) : ℚ := roundF32 (n : ℚ)

/-- Correctly rounded binary32 division. -/
def f32_div (x y : ℚ) : ℚ := roundF32 (x / y)

/-- The inverse document frequency computed at TermScorer construction:
1f32 / (doc_freq as f32), with binary32 semantics modelled exactly over the
rationals (the cast and the division each round to nearest, ties to even). -/
def idf (doc_freq : Nat) : ℚ := f32_div 1 (u32_to_f32 doc_freq)

/-- Result of TermWeight scorer construction: either the empty scorer or a
TermScorer carrying its idf, fieldnorm reader and posting stream. -/
inductive TermScorerResult
  | emptyScorer
  | termScorer (idfVal : ℚ) (fieldnorm_reader : FieldNormReader)
      (segment_postings : SegmentPostings)

/-- TermWeight::scorer: obtain the fieldnorm reader (propagating failure),
then build a TermScorer from the term's postings if present, and the empty
scorer otherwise. -/
def TermWeight.scorer (w : TermWeight) (reader : SegmentReader) :
    Except SearchError TermScorerResult := do
  let fieldnorm_reader ← reader.get_fieldnorms_reader w.term.field
  match reader.read_postings w.term SegmentPostingsOption.Freq with
  | some segment_postings =>
      Except.ok (TermScorerResult.termScorer (idf w.doc_freq) fieldnorm_reader segment_postings)
  | none => Except.ok TermScorerResult.emptyScorer

/-- C3: whenever the fieldnorm reader is available, TermWeight scorer
construction returns Ok — absence of the term from the vocabulary is not an
error; the result is the empty scorer exactly when the term's document
frequency in the segment is zero (segments never hold empty posting lists),
and otherwise it is a TermScorer over the term's posting stream. -/
theorem term_weight_scorer_empty_iff (w : TermWeight) (reader : SegmentReader)
    (fnr : FieldNormReader)
    (hfn : reader.get_fieldnorms_reader w.term.field = Except.ok fnr)
    (hwf : ∀ sp, reader.read_postings w.term SegmentPostingsOption.Freq = some sp → sp ≠ []) :
    ∃ r, w.scorer reader = Except.ok r ∧
      (r = TermScorerResult.emptyScorer ↔ segmentDocFreq reader w.term = 0) ∧
      (segmentDocFreq reader w.term ≠ 0 →
        ∃ sp, reader.read_postings w.term SegmentPostingsOption.Freq = some sp ∧
          r = TermScorerResult.termScorer (idf w.doc_freq) fnr sp) := by
  unfold TermWeight.scorer segmentDocFreq
  rw [hfn]
  cases hrp : reader.read_postings w.term SegmentPostingsOption.Freq with
  | none =>
      refine ⟨TermScorerResult.emptyScorer, rfl, by simp, by simp⟩
  | some sp =>
      refine ⟨TermScorerResult.termScorer (idf w.doc_freq) fnr sp, rfl, ?_, ?_⟩
      · constructor
        · intro h; cases h
        · intro h
          exact absurd (List.length_eq_zero.mp h) (hwf sp hrp)
      · intro _
        exact ⟨sp, rfl, rfl⟩

/-- A concrete segment reader used by the witnesses: one field with constant
fieldnorms, and exactly the term (0, "a") present with one posting. -/
def sampleReader : SegmentReader where
  get_fieldnorms_reader := fun _ => Except.ok ⟨fun _ => 1⟩
  read_postings := fun t _ => if t = ⟨0, "a"⟩ then some [(0, 1)] else none

/-- Witness for C3: on the concrete segment reader, the scorer for the
present term (0, "a") with document frequency 1 is Ok and characterised as
the theorem states. -/
theorem term_weight_scorer_empty_iff_witness :
    ∃ r, TermWeight.scorer ⟨1, ⟨0, "a"⟩⟩ sampleReader = Except.ok r ∧
      (r = TermScorerResult.emptyScorer ↔ segmentDocFreq sampleReader ⟨0, "a"⟩ = 0) ∧
      (segmentDocFreq sampleReader ⟨0, "a"⟩ ≠ 0 →
        ∃ sp, sampleReader.read_postings ⟨0, "a"⟩ SegmentPostingsOption.Freq = some sp ∧
          r = TermScorerResult.termScorer (idf 1) ⟨fun _ => 1⟩ sp) :=
  term_weight_scorer_empty_iff ⟨1, ⟨0, "a"⟩⟩ sampleReader ⟨fun _ => 1⟩ rfl
    (by intro sp h; simp [sampleReader] at h; subst h; simp)

/-- Bracketing of the fuel-bounded logarithm: with enough fuel it is the
floor base-2 logarithm. -/
theorem log2fuel_bracket : ∀ (fuel n : Nat), 1 ≤ n → n ≤ fuel →
    2 ^ log2fuel fuel n ≤ n ∧ n < 2 ^ (log2fuel fuel n + 1) := by
  intro fuel
  induction fuel with
  | zero => intro n h1 h2; omega
  | succ f ih =>
      intro n h1 h2
      by_cases hn : n ≤ 1
      · have hn1 : n = 1 := by omega
        subst hn1
        simp [log2fuel]
      · obtain ⟨hr1, hr2⟩ := ih (n / 2) (by omega) (by omega)
        have hstep : log2fuel (f + 1) n = log2fuel f (n / 2) + 1 := by
          simp [log2fuel, hn]
        rw [hstep]
        rw [pow_succ, pow_succ]
        constructor
        · omega
        · rw [pow_succ] at hr2
          omega

/-- Bracketing of natLog2: it is the floor base-2 logarithm. -/
theorem natLog2_bracket (n : Nat) (h : 1 ≤ n) :
    2 ^ natLog2 n ≤ n ∧ n < 2 ^ (natLog2 n + 1) :=
  log2fuel_bracket n n h le_rfl

/-- Bracketing of qExp: it is the floor base-2 exponent of a positive
rational. -/
theorem qExp_bracket (q : ℚ) (hq : 0 < q) :
    (2 : ℚ) ^ qExp q ≤ q ∧ q < (2 : ℚ) ^ (qExp q + 1) := by
  have hnum : 0 < q.num := Rat.num_pos.mpr hq
  have ha1 : 1 ≤ q.num.natAbs := by omega
  have hb1 : 1 ≤ q.den := q.den_pos
  obtain ⟨hA1, hA2⟩ := natLog2_bracket q.num.natAbs ha1
  obtain ⟨hB1, hB2⟩ := natLog2_bracket q.den hb1
  have hq_eq : q = (q.num.natAbs : ℚ) / (q.den : ℚ) := by
    have h1 : (q.num.natAbs : ℚ) = (q.num : ℚ) := by
      rw [Int.cast_natAbs]
      exact congrArg (fun z : ℤ => (z : ℚ)) (abs_of_nonneg hnum.le)
    rw [h1, Rat.num_div_den]
  have hapos : (0 : ℚ) < (q.num.natAbs : ℚ) := by exact_mod_cast ha1
  have hbpos : (0 : ℚ) < (q.den : ℚ) := by exact_mod_cast hb1
  have hA1z : (2 : ℚ) ^ ((natLog2 q.num.natAbs : ℕ) : ℤ) ≤ (q.num.natAbs : ℚ) := by
    rw [zpow_natCast]
    exact_mod_cast hA1
  have hA2z : (q.num.natAbs : ℚ) < (2 : ℚ) ^ ((natLog2 q.num.natAbs : ℤ) + 1) := by
    have he : (natLog2 q.num.natAbs : ℤ) + 1 = ((natLog2 q.num.natAbs + 1 : ℕ) : ℤ) := by
      push_cast; ring
    rw [he, zpow_natCast]
    exact_mod_cast hA2
  have hB1z : (2 : ℚ) ^ ((natLog2 q.den : ℕ) : ℤ) ≤ (q.den : ℚ) := by
    rw [zpow_natCast]
    exact_mod_cast hB1
  have hB2z : (q.den : ℚ) < (2 : ℚ) ^ ((natLog2 q.den : ℤ) + 1) := by
    have he : (natLog2 q.den : ℤ) + 1 = ((natLog2 q.den + 1 : ℕ) : ℤ) := by
      push_cast; ring
    rw [he, zpow_natCast]
    exact_mod_cast hB2
  have hupper : q < (2 : ℚ) ^ ((natLog2 q.num.natAbs : ℤ) - (natLog2 q.den : ℤ) + 1) := by
    have h1 : (q.num.natAbs : ℚ) / (q.den : ℚ) ≤
        (q.num.natAbs : ℚ) / (2 : ℚ) ^ ((natLog2 q.den : ℕ) : ℤ) :=
      div_le_div_of_nonneg_left hapos.le (by positivity) hB1z
    have h2 : (q.num.natAbs : ℚ) / (2 : ℚ) ^ ((natLog2 q.den : ℕ) : ℤ) <
        (2 : ℚ) ^ ((natLog2 q.num.natAbs : ℤ) + 1) / (2 : ℚ) ^ ((natLog2 q.den : ℕ) : ℤ) :=
      div_lt_div_of_pos_right hA2z (by positivity)
    have h3 : (2 : ℚ) ^ ((natLog2 q.num.natAbs : ℤ) + 1) / (2 : ℚ) ^ ((natLog2 q.den : ℕ) : ℤ) =
        (2 : ℚ) ^ ((natLog2 q.num.natAbs : ℤ) - (natLog2 q.den : ℤ) + 1) := by
      rw [← zpow_sub₀ two_ne_zero]
      congr 1
      ring
    have hcalc : (q.num.natAbs : ℚ) / (q.den : ℚ) <
        (2 : ℚ) ^ ((natLog2 q.num.natAbs : ℤ) - (natLog2 q.den : ℤ) + 1) := by
      rw [← h3]
      exact lt_of_le_of_lt h1 h2
    rw [← hq_eq] at hcalc
    exact hcalc
  have hlower : (2 : ℚ) ^ ((natLog2 q.num.natAbs : ℤ) - (natLog2 q.den : ℤ) - 1) < q := by
    have h1 : (2 : ℚ) ^ ((natLog2 q.num.natAbs : ℤ) - (natLog2 q.den : ℤ) - 1) =
        (2 : ℚ) ^ ((natLog2 q.num.natAbs : ℕ) : ℤ) / (2 : ℚ) ^ ((natLog2 q.den : ℤ) + 1) := by
      rw [← zpow_sub₀ two_ne_zero]
      congr 1
      ring
    have h2 : (2 : ℚ) ^ ((natLog2 q.num.natAbs : ℕ) : ℤ) / (2 : ℚ) ^ ((natLog2 q.den : ℤ) + 1) ≤
        (q.num.natAbs : ℚ) / (2 : ℚ) ^ ((natLog2 q.den : ℤ) + 1) :=
      (div_le_div_iff_of_pos_right (by positivity)).mpr hA1z
    have h3 : (q.num.natAbs : ℚ) / (2 : ℚ) ^ ((natLog2 q.den : ℤ) + 1) <
        (q.num.natAbs : ℚ) / (q.den : ℚ) :=
      div_lt_div_of_pos_left hapos hbpos hB2z
    have hcalc : (2 : ℚ) ^ ((natLog2 q.num.natAbs : ℤ) - (natLog2 q.den : ℤ) - 1) <
        (q.num.natAbs : ℚ) / (q.den : ℚ) := by
      rw [h1]
      exact lt_of_le_of_lt h2 h3
    rw [← hq_eq] at hcalc
    exact hcalc
  unfold qExp
  by_cases hif : (2 : ℚ) ^ ((natLog2 q.num.natAbs : ℤ) - (natLog2 q.den : ℤ)) ≤ q
  · rw [if_pos hif]
    exact ⟨hif, hupper⟩
  · rw [if_neg hif]
    constructor
    · exact hlower.le
    · have he : (natLog2 q.num.natAbs : ℤ) - (natLog2 q.den : ℤ) - 1 + 1 =
          (natLog2 q.num.natAbs : ℤ) - (natLog2 q.den : ℤ) := by ring
      rw [he]
      exact lt_of_not_le hif

/-- Round-to-nearest stays within one unit of the floor. -/
theorem rni_bounds (x : ℚ) : ⌊x⌋ ≤ rni x ∧ rni x ≤ ⌊x⌋ + 1 := by
  unfold rni
  split_ifs <;> omega

/-- Round-to-nearest, ties to even, is monotone. -/
theorem rni_mono {x y : ℚ} (h : x ≤ y) : rni x ≤ rni y := by
  rcases lt_or_eq_of_le (Int.floor_le_floor h) with hf | hf
  · have h1 := (rni_bounds x).2
    have h2 := (rni_bounds y).1
    omega
  · unfold rni
    rw [← hf]
    split_ifs <;> first | omega | (exfalso; linarith)

/-- Unfolding of roundF32 on positive input. -/
theorem roundF32_eq (q : ℚ) (hq : 0 < q) :
    roundF32 q = (rni (q / 2 ^ (qExp q - 23)) : ℚ) * 2 ^ (qExp q - 23) := by
  unfold roundF32
  rw [if_neg (not_le.mpr hq)]

/-- The rounded value stays within the binade of its input. -/
theorem roundF32_bounds (q : ℚ) (hq : 0 < q) :
    (2 : ℚ) ^ qExp q ≤ roundF32 q ∧ roundF32 q ≤ (2 : ℚ) ^ (qExp q + 1) := by
  obtain ⟨hb1, hb2⟩ := qExp_bracket q hq
  have hpow : (0 : ℚ) < 2 ^ (qExp q - 23) := by positivity
  have hs1 : (2 : ℚ) ^ (23 : ℤ) ≤ q / 2 ^ (qExp q - 23) := by
    rw [le_div_iff₀ hpow, ← zpow_add₀ two_ne_zero]
    calc (2 : ℚ) ^ (23 + (qExp q - 23)) = 2 ^ qExp q := by congr 1; ring
      _ ≤ q := hb1
  have hs2 : q / 2 ^ (qExp q - 23) < (2 : ℚ) ^ (24 : ℤ) := by
    rw [div_lt_iff₀ hpow, ← zpow_add₀ two_ne_zero]
    calc q < 2 ^ (qExp q + 1) := hb2
      _ = 2 ^ (24 + (qExp q - 23)) := by congr 1; ring
  have hfl1 : (2 ^ 23 : ℤ) ≤ ⌊q / 2 ^ (qExp q - 23)⌋ := by
    apply Int.le_floor.mpr
    calc ((2 ^ 23 : ℤ) : ℚ) = (2 : ℚ) ^ (23 : ℤ) := by norm_num
      _ ≤ _ := hs1
  have hfl2 : ⌊q / 2 ^ (qExp q - 23)⌋ < (2 ^ 24 : ℤ) := by
    apply Int.floor_lt.mpr
    calc q / 2 ^ (qExp q - 23) < (2 : ℚ) ^ (24 : ℤ) := hs2
      _ = ((2 ^ 24 : ℤ) : ℚ) := by norm_num
  obtain ⟨hr1, hr2⟩ := rni_bounds (q / 2 ^ (qExp q - 23))
  rw [roundF32_eq q hq]
  constructor
  · have hcast : (2 : ℚ) ^ (23 : ℤ) ≤ (rni (q / 2 ^ (qExp q - 23)) : ℚ) := by
      have hz : (2 ^ 23 : ℤ) ≤ rni (q / 2 ^ (qExp q - 23)) := by omega
      calc (2 : ℚ) ^ (23 : ℤ) = ((2 ^ 23 : ℤ) : ℚ) := by norm_num
        _ ≤ _ := by exact_mod_cast hz
    calc (2 : ℚ) ^ qExp q = 2 ^ (23 : ℤ) * 2 ^ (qExp q - 23) := by
          rw [← zpow_add₀ two_ne_zero]; congr 1; ring
      _ ≤ (rni (q / 2 ^ (qExp q - 23)) : ℚ) * 2 ^ (qExp q - 23) :=
          mul_le_mul_of_nonneg_right hcast hpow.le
  · have hcast : (rni (q / 2 ^ (qExp q - 23)) : ℚ) ≤ (2 : ℚ) ^ (24 : ℤ) := by
      have hz : rni (q / 2 ^ (qExp q - 23)) ≤ (2 ^ 24 : ℤ) := by omega
      calc (rni (q / 2 ^ (qExp q - 23)) : ℚ) ≤ ((2 ^ 24 : ℤ) : ℚ) := by exact_mod_cast hz
        _ = (2 : ℚ) ^ (24 : ℤ) := by norm_num
    calc (rni (q / 2 ^ (qExp q - 23)) : ℚ) * 2 ^ (qExp q - 23) ≤
          (2 : ℚ) ^ (24 : ℤ) * 2 ^ (qExp q - 23) :=
          mul_le_mul_of_nonneg_right hcast hpow.le
      _ = 2 ^ (qExp q + 1) := by rw [← zpow_add₀ two_ne_zero]; congr 1; ring

/-- Rounding a positive value yields a positive value: the model never
underflows to zero (its inputs stay in the normal range). -/
theorem roundF32_pos (q : ℚ) (hq : 0 < q) : 0 < roundF32 q :=
  lt_of_lt_of_le (by positivity) (roundF32_bounds q hq).1

/-- The floor exponent is monotone. -/
theorem qExp_mono {x y : ℚ} (hx : 0 < x) (hxy : x ≤ y) : qExp x ≤ qExp y := by
  have h1 := (qExp_bracket x hx).1
  have h2 := (qExp_bracket y (lt_of_lt_of_le hx hxy)).2
  have h3 : (2 : ℚ) ^ qExp x < 2 ^ (qExp y + 1) := lt_of_le_of_lt (le_trans h1 hxy) h2
  have h4 := (zpow_lt_zpow_iff_right₀ one_lt_two).mp h3
  omega

/-- Binary32 rounding is monotone. -/
theorem roundF32_mono {x y : ℚ} (hx : 0 < x) (hxy : x ≤ y) :
    roundF32 x ≤ roundF32 y := by
  have hy : 0 < y := lt_of_lt_of_le hx hxy
  rcases lt_or_eq_of_le (qExp_mono hx hxy) with he | he
  · calc roundF32 x ≤ 2 ^ (qExp x + 1) := (roundF32_bounds x hx).2
      _ ≤ 2 ^ qExp y := zpow_le_zpow_right₀ one_le_two (by omega)
      _ ≤ roundF32 y := (roundF32_bounds y hy).1
  · rw [roundF32_eq x hx, roundF32_eq y hy, ← he]
    have hpow : (0 : ℚ) < 2 ^ (qExp x - 23) := by positivity
    have hdiv : x / 2 ^ (qExp x - 23) ≤ y / 2 ^ (qExp x - 23) :=
      (div_le_div_iff_of_pos_right hpow).mpr hxy
    exact mul_le_mul_of_nonneg_right (by exact_mod_cast rni_mono hdiv) hpow.le

/-- The cast of a positive u32 to binary32 is positive. -/
theorem u32_to_f32_pos (n : Nat) (h : 1 ≤ n) : 0 < u32_to_f32 n :=
  roundF32_pos _ (by exact_mod_cast h)

/-- The idf is strictly positive for every document frequency at least 1. -/
theorem idf_pos (df : Nat) (h : 1 ≤ df) : 0 < idf df :=
  roundF32_pos _ (div_pos one_pos (u32_to_f32_pos df h))

/-- The idf is monotonically non-increasing in document frequency. -/
theorem idf_anti (a b : Nat) (ha : 1 ≤ a) (hab : a ≤ b) : idf b ≤ idf a := by
  have hpa : 0 < u32_to_f32 a := u32_to_f32_pos a ha
  have hmono : u32_to_f32 a ≤ u32_to_f32 b :=
    roundF32_mono (by exact_mod_cast ha) (by exact_mod_cast hab)
  have hpb : 0 < u32_to_f32 b := u32_to_f32_pos b (le_trans ha hab)
  have hinv : 1 / u32_to_f32 b ≤ 1 / u32_to_f32 a := one_div_le_one_div_of_le hpa hmono
  exact roundF32_mono (div_pos one_pos hpb) hinv

/-- The power of two 2 ^ 24 = 16777216 casts to binary32 exactly. -/
theorem u32_cast_pow24 : u32_to_f32 16777216 = 16777216 := by
  have hnum : ((16777216 : ℕ) : ℚ) = (16777216 : ℚ) := by norm_num
  unfold u32_to_f32
  rw [hnum]
  have he : qExp (16777216 : ℚ) = 24 := by
    unfold qExp
    have h1 : natLog2 (16777216 : ℚ).num.natAbs = 24 := by
      simp [Rat.num_ofNat]
      decide
    have h2 : natLog2 (16777216 : ℚ).den = 0 := by
      simp [Rat.den_ofNat]
      decide
    rw [h1, h2]
    norm_num
  rw [roundF32_eq _ (by norm_num), he]
  have hfl : ⌊(16777216 : ℚ) / 2 ^ ((24 : ℤ) - 23)⌋ = 8388608 := by
    rw [Int.floor_eq_iff]
    norm_num
  unfold rni
  rw [hfl]
  rw [if_pos (by norm_num)]
  norm_num

/-- The value 2 ^ 24 + 1 = 16777217 is not representable in binary32: the
cast ties to the even neighbour 16777216. -/
theorem u32_cast_pow24_succ : u32_to_f32 16777217 = 16777216 := by
  have hnum : ((16777217 : ℕ) : ℚ) = (16777217 : ℚ) := by norm_num
  unfold u32_to_f32
  rw [hnum]
  have he : qExp (16777217 : ℚ) = 24 := by
    unfold qExp
    have h1 : natLog2 (16777217 : ℚ).num.natAbs = 24 := by
      simp [Rat.num_ofNat]
      decide
    have h2 : natLog2 (16777217 : ℚ).den = 0 := by
      simp [Rat.den_ofNat]
      decide
    rw [h1, h2]
    norm_num
  rw [roundF32_eq _ (by norm_num), he]
  have hfl : ⌊(16777217 : ℚ) / 2 ^ ((24 : ℤ) - 23)⌋ = 8388608 := by
    rw [Int.floor_eq_iff]
    norm_num
  unfold rni
  rw [hfl]
  rw [if_neg (by norm_num), if_neg (by norm_num), if_pos (by decide)]
  norm_num

/-- Document frequencies 16777216 and 16777217 cast to the same binary32
value, so they receive the same idf. -/
theorem idf_collision : idf 16777217 = idf 16777216 := by
  unfold idf
  rw [u32_cast_pow24, u32_cast_pow24_succ]

/-- Counterexample for C4: under binary32 semantics the idf is not strictly
decreasing in document frequency — the valid u32 document frequencies
16777216 and 16777217 (both at least 1) cast to the same float, so their
idf values coincide instead of strictly decreasing. -/
theorem term_scorer_idf_strict_anti_counterexample :
    (1 : ℕ) ≤ 16777216 ∧ (16777216 : ℕ) < 16777217 ∧
    idf 16777217 = idf 16777216 ∧ ¬ idf 16777217 < idf 16777216 := by
  refine ⟨by norm_num, by norm_num, idf_collision, ?_⟩
  rw [idf_collision]
  exact lt_irrefl _

/-- C4 (amended): the idf of a TermScorer is exactly the value computed once
at construction — 1f32 / (doc_freq as f32) under binary32 round-to-nearest,
ties-to-even semantics; as a function of document frequency it is strictly
positive for every document frequency at least 1 and monotonically
(non-strictly) decreasing, so the idf factor never contributes a NaN or a
negative value to a score. -/
theorem term_scorer_idf_positive_antitone :
    (∀ (w : TermWeight) (reader : SegmentReader) (i : ℚ) (fnr : FieldNormReader)
        (sp : SegmentPostings),
        w.scorer reader = Except.ok (TermScorerResult.termScorer i fnr sp) →
        i = idf w.doc_freq) ∧
    (∀ df : Nat, 1 ≤ df → 0 < idf df) ∧
    (∀ a b : Nat, 1 ≤ a → a ≤ b → idf b ≤ idf a) := by
  refine ⟨?_, idf_pos, idf_anti⟩
  intro w reader i fnr sp h
  unfold TermWeight.scorer at h
  cases hfn : reader.get_fieldnorms_reader w.term.field with
  | error e => rw [hfn] at h; simp [Bind.bind, Except.bind] at h
  | ok f =>
      rw [hfn] at h
      cases hrp : reader.read_postings w.term SegmentPostingsOption.Freq with
      | none => rw [hrp] at h; simp [Bind.bind, Except.bind] at h
      | some sp2 =>
          rw [hrp] at h
          simp [Bind.bind, Except.bind] at h
          exact h.1.symm

/-- Witness for C4: the TermScorer built from the sample reader for document
frequency 2 carries exactly idf 2; idf 2 is positive and idf 3 is no larger
than idf 2. -/
theorem term_scorer_idf_positive_antitone_witness :
    (TermWeight.scorer ⟨2, ⟨0, "a"⟩⟩ sampleReader =
        Except.ok (TermScorerResult.termScorer (idf 2) ⟨fun _ => 1⟩ [(0, 1)]) →
      idf 2 = idf 2) ∧
    0 < idf 2 ∧ idf 3 ≤ idf 2 :=
  ⟨term_scorer_idf_positive_antitone.1 ⟨2, ⟨0, "a"⟩⟩ sampleReader (idf 2)
      ⟨fun _ => 1⟩ [(0, 1)],
    term_scorer_idf_positive_antitone.2.1 2 (by decide),
    term_scorer_idf_positive_antitone.2.2 2 3 (by decide) (by decide)⟩

/-! ### Mmap cache and S3 directory (src/directory/s3_directory.rs) -/

/-- File system paths, as segment lists. -/
abbrev FsPath := List String

/-- A memory mapping, identified by the path it maps. -/
abbrev Mmap := FsPath

/-- State of a cached weak reference: it either still upgrades to a live
mapping, or the mapping has been dropped elsewhere. -/
inductive EntryState
  | alive (m : Mmap)
  | dead
deriving DecidableEq

/-- True when the weak reference still upgrades. -/
def EntryState.isAlive : EntryState → Bool
  | alive _ => true
  | dead => false

/-- State of a path on the file system as seen by open and remove calls. -/
inductive FileState
  | absent
  | ioErrState
  | file (len : Nat)
deriving DecidableEq

/-- A file system: the state of every path. -/
abbrev FileSys := FsPath → FileState

/-- Errors of open_read, as in directory/error.rs. -/
inductive OpenReadError
  | fileDoesNotExist (p : FsPath)
  | ioError (p : FsPath)
deriving DecidableEq

/-- Errors of delete, as in directory/error.rs. -/
inductive DeleteError
  | fileDoesNotExist (p : FsPath)
  | ioError (p : FsPath)
deriving DecidableEq

/-- The open_mmap helper: a missing file is FileDoesNotExist, other open
failures are IOError, a zero-length file yields Ok none (it cannot be
mmapped), and a non-empty file yields its mapping. -/
def open_mmap (fs : FileSys) (full_path : FsPath) : Except OpenReadError (Option Mmap) :=
  match fs full_path with
  | FileState.absent => Except.error (OpenReadError.fileDoesNotExist full_path)
  | FileState.ioErrState => Except.error (OpenReadError.ioError full_path)
  | FileState.file 0 => Except.ok none
  | FileState.file (_ + 1) => Except.ok (some full_path)

/-- The three cache counters. -/
structure CacheCounters where
  hit : Nat
  miss_empty : Nat
  miss_weak : Nat
deriving DecidableEq

/-- Total number of counted lookups. -/
def CacheCounters.total (c : CacheCounters) : Nat := c.hit + c.miss_empty + c.miss_weak

/-- The mmap cache: counters, the path-to-weak-reference map (modelled as an
association list), and the purge threshold. -/
structure MmapCache where
  counters : CacheCounters
  cache : List (FsPath × EntryState)
  purge_weak_limit : Nat
deriving DecidableEq

/-- The starting purge threshold. -/
def STARTING_PURGE_WEAK_LIMIT : Nat := 1000

/-- Looks a path up in the association list. -/
def lookupEntry (cache : List (FsPath × EntryState)) (p : FsPath) : Option EntryState :=
  (cache.find? (fun e => e.1 == p)).map (fun e => e.2)

/-- Overwrites the entry of an already-present path (occupied insert). -/
def updateEntry (cache : List (FsPath × EntryState)) (p : FsPath) (v : EntryState) :
    List (FsPath × EntryState) :=
  cache.map (fun e => if e.1 == p then (e.1, v) else e)

/-- Removes the entry of a path (HashMap remove). -/
def removeEntry (cache : List (FsPath × EntryState)) (p : FsPath) :
    List (FsPath × EntryState) :=
  cache.filter (fun e => !(e.1 == p))

/-- MmapCache::cleanup: retain only entries whose weak reference upgrades;
when nothing was reclaimed, double the purge threshold. -/
def MmapCache.cleanup (st : MmapCache) : MmapCache :=
  let previous_cache_size := st.cache.length
  let new_cache := st.cache.filter (fun e => e.2.isAlive)
  { st with
    cache := new_cache,
    purge_weak_limit :=
      if new_cache.length = previous_cache_size then st.purge_weak_limit * 2
      else st.purge_weak_limit }

/-- The body of MmapCache::get_mmap after the purge step: probe the map; on a
live entry count a hit and share the mapping; on a dead entry count a weak
miss and reopen, overwriting the entry when a mapping results; on no entry
count an empty miss and reopen, inserting an entry when a mapping results.
Counter increments persist even when the reopen fails. -/
def MmapCache.get_mmap_core (st : MmapCache) (fs : FileSys) (full_path : FsPath) :
    MmapCache × Except OpenReadError (Option Mmap) :=
  match lookupEntry st.cache full_path with
  | some (EntryState.alive m) =>
      ({ st with counters := { st.counters with hit := st.counters.hit + 1 } },
        Except.ok (some m))
  | some EntryState.dead =>
      let st1 := { st with
        counters := { st.counters with miss_weak := st.counters.miss_weak + 1 } }
      match open_mmap fs full_path with
      | Except.error e => (st1, Except.error e)
      | Except.ok (some m) =>
          ({ st1 with cache := updateEntry st1.cache full_path (EntryState.alive m) },
            Except.ok (some m))
      | Except.ok none => (st1, Except.ok none)
  | none =>
      let st1 := { st with
        counters := { st.counters with miss_empty := st.counters.miss_empty + 1 } }
      match open_mmap fs full_path with
      | Except.error e => (st1, Except.error e)
      | Except.ok (some m) =>
          ({ st1 with cache := (full_path, EntryState.alive m) :: st1.cache },
            Except.ok (some m))
      | Except.ok none => (st1, Except.ok none)

/-- MmapCache::get_mmap: purge dead entries first when the map has grown past
the threshold, then probe. -/
def MmapCache.get_mmap (st : MmapCache) (fs : FileSys) (full_path : FsPath) :
    MmapCache × Except OpenReadError (Option Mmap) :=
  let st2 := if st.purge_weak_limit < st.cache.length then st.cleanup else st
  st2.get_mmap_core fs full_path

/-- An event touching the cache: a lookup against a file system, or the drop
elsewhere of the last strong reference to the mapping cached for a path. -/
inductive CacheOp
  | lookupOp (fs : FileSys) (p : FsPath)
  | dropOp (p : FsPath)

/-- Applies one event to the cache. -/
def applyOp (st : MmapCache) : CacheOp → MmapCache
  | CacheOp.lookupOp fs p => (st.get_mmap fs p).1
  | CacheOp.dropOp p => { st with cache := updateEntry st.cache p EntryState.dead }

/-- Runs a sequence of events. -/
def runOps (st : MmapCache) (ops : List CacheOp) : MmapCache := ops.foldl applyOp st

/-- Whether an event is a lookup. -/
def CacheOp.isLookup : CacheOp → Bool
  | lookupOp _ _ => true
  | dropOp _ => false

/-- Number of lookups in a sequence of events. -/
def numLookups (ops : List CacheOp) : Nat := (ops.filter CacheOp.isLookup).length

/-- The S3 directory: its root path and its mmap cache. -/
structure S3Directory where
  root_path : FsPath
  mmap_cache : MmapCache

/-- Joins a relative path to the directory root. -/
def S3Directory.resolve_path (dir : S3Directory) (relative_path : FsPath) : FsPath :=
  dir.root_path ++ relative_path

/-- S3Directory::delete: remove the entry from the mmap cache first, then
attempt file removal, mapping a missing file to FileDoesNotExist and any
other failure to IOError. -/
def S3Directory.delete (dir : S3Directory) (fs : FileSys) (path : FsPath) :
    S3Directory × Except DeleteError Unit :=
  let full_path := dir.resolve_path path
  let dir1 := { dir with
    mmap_cache := { dir.mmap_cache with
      cache := removeEntry dir.mmap_cache.cache full_path } }
  match fs full_path with
  | FileState.file _ => (dir1, Except.ok ())
  | FileState.absent => (dir1, Except.error (DeleteError.fileDoesNotExist path))
  | FileState.ioErrState => (dir1, Except.error (DeleteError.ioError path))

/-- Byte sources returned by open_read. -/
inductive ReadOnlySource
  | mmapSource (m : Mmap)
  | anonymous (data : List Nat)
deriving DecidableEq

/-- S3Directory::open_read: consult the mmap cache; a mapping becomes an
mmap-backed source, and the no-mapping case (zero-length file) becomes an
empty anonymous source. -/
def S3Directory.open_read (dir : S3Directory) (fs : FileSys) (path : FsPath) :
    S3Directory × Except OpenReadError ReadOnlySource :=
  let full_path := dir.resolve_path path
  let res := dir.mmap_cache.get_mmap fs full_path
  let dir1 := { dir with mmap_cache := res.1 }
  match res.2 with
  | Except.error e => (dir1, Except.error e)
  | Except.ok (some m) => (dir1, Except.ok (ReadOnlySource.mmapSource m))
  | Except.ok none => (dir1, Except.ok (ReadOnlySource.anonymous []))

/-! ### Cache lemmas -/

/-- Cleanup never touches the counters. -/
theorem cleanup_counters (st : MmapCache) : (st.cleanup).counters = st.counters := rfl

/-- One probe of the cache body increments the counter total by exactly one,
whatever the outcome. -/
theorem get_mmap_core_total (st : MmapCache) (fs : FileSys) (p : FsPath) :
    ((st.get_mmap_core fs p).1).counters.total = st.counters.total + 1 := by
  unfold MmapCache.get_mmap_core
  cases h : lookupEntry st.cache p with
  | none =>
      cases ho : open_mmap fs p with
      | error e => simp [CacheCounters.total]; omega
      | ok o => cases o <;> simp [CacheCounters.total] <;> omega
  | some es =>
      cases es with
      | alive m => simp [CacheCounters.total]; omega
      | dead =>
          cases ho : open_mmap fs p with
          | error e => simp [CacheCounters.total]; omega
          | ok o => cases o <;> simp [CacheCounters.total] <;> omega

/-- One lookup increments the counter total by exactly one. -/
theorem get_mmap_total (st : MmapCache) (fs : FileSys) (p : FsPath) :
    ((st.get_mmap fs p).1).counters.total = st.counters.total + 1 := by
  unfold MmapCache.get_mmap
  by_cases h : st.purge_weak_limit < st.cache.length
  · rw [if_pos h, get_mmap_core_total, cleanup_counters]
  · rw [if_neg h, get_mmap_core_total]

/-- When no purge is triggered, a lookup is exactly the probe body. -/
theorem get_mmap_eq_core (st : MmapCache) (fs : FileSys) (p : FsPath)
    (hle : st.cache.length ≤ st.purge_weak_limit) :
    st.get_mmap fs p = st.get_mmap_core fs p := by
  unfold MmapCache.get_mmap
  rw [if_neg (Nat.not_lt.mpr hle)]

/-- Probe of a live entry: hit counter incremented, mapping shared, map
untouched. -/
theorem get_mmap_core_hit (st : MmapCache) (fs : FileSys) (p : FsPath) (m : Mmap)
    (hm : lookupEntry st.cache p = some (EntryState.alive m)) :
    st.get_mmap_core fs p =
      ({ st with counters := { st.counters with hit := st.counters.hit + 1 } },
        Except.ok (some m)) := by
  unfold MmapCache.get_mmap_core
  rw [hm]

/-- Probe of a dead entry: weak-miss counter incremented and a fresh open
performed. -/
theorem get_mmap_core_dead (st : MmapCache) (fs : FileSys) (p : FsPath)
    (hm : lookupEntry st.cache p = some EntryState.dead) :
    (st.get_mmap_core fs p).1.counters =
      { st.counters with miss_weak := st.counters.miss_weak + 1 } ∧
    (st.get_mmap_core fs p).2 = open_mmap fs p := by
  unfold MmapCache.get_mmap_core
  rw [hm]
  cases ho : open_mmap fs p with
  | error e => exact ⟨rfl, rfl⟩
  | ok o => cases o <;> exact ⟨rfl, rfl⟩

/-- Probe with no entry: empty-miss counter incremented and a fresh open
performed. -/
theorem get_mmap_core_empty (st : MmapCache) (fs : FileSys) (p : FsPath)
    (hm : lookupEntry st.cache p = none) :
    (st.get_mmap_core fs p).1.counters =
      { st.counters with miss_empty := st.counters.miss_empty + 1 } ∧
    (st.get_mmap_core fs p).2 = open_mmap fs p := by
  unfold MmapCache.get_mmap_core
  rw [hm]
  cases ho : open_mmap fs p with
  | error e => exact ⟨rfl, rfl⟩
  | ok o => cases o <;> exact ⟨rfl, rfl⟩

/-- C7: every lookup increments exactly one counter — a hit when a live entry
exists (the shared mapping is returned with the map untouched, no fresh
open), a weak miss when the entry is dead and an empty miss when no entry
exists (a fresh mapping is opened in both miss cases); over any event
sequence the counter total grows by exactly the number of lookups. -/
theorem mmap_cache_counter_discipline :
    (∀ (st : MmapCache) (fs : FileSys) (p : FsPath),
        ((st.get_mmap fs p).1).counters.total = st.counters.total + 1) ∧
    (∀ (st : MmapCache) (fs : FileSys) (p : FsPath),
        st.cache.length ≤ st.purge_weak_limit →
        (∀ m, lookupEntry st.cache p = some (EntryState.alive m) →
            (st.get_mmap fs p).1.counters =
              { st.counters with hit := st.counters.hit + 1 } ∧
            (st.get_mmap fs p).2 = Except.ok (some m) ∧
            (st.get_mmap fs p).1.cache = st.cache) ∧
        (lookupEntry st.cache p = some EntryState.dead →
            (st.get_mmap fs p).1.counters =
              { st.counters with miss_weak := st.counters.miss_weak + 1 } ∧
            (st.get_mmap fs p).2 = open_mmap fs p) ∧
        (lookupEntry st.cache p = none →
            (st.get_mmap fs p).1.counters =
              { st.counters with miss_empty := st.counters.miss_empty + 1 } ∧
            (st.get_mmap fs p).2 = open_mmap fs p)) ∧
    (∀ (st : MmapCache) (ops : List CacheOp),
        (runOps st ops).counters.total = st.counters.total + numLookups ops) := by
  refine ⟨get_mmap_total, ?_, ?_⟩
  · intro st fs p hle
    rw [get_mmap_eq_core st fs p hle]
    refine ⟨?_, ?_, ?_⟩
    · intro m hm
      rw [get_mmap_core_hit st fs p m hm]
      exact ⟨rfl, rfl, rfl⟩
    · intro hm
      exact get_mmap_core_dead st fs p hm
    · intro hm
      exact get_mmap_core_empty st fs p hm
  · intro st ops
    induction ops generalizing st with
    | nil => simp [runOps, numLookups]
    | cons op t ih =>
        have hrun : runOps st (op :: t) = runOps (applyOp st op) t := rfl
        cases op with
        | lookupOp fs p =>
            have hnum : numLookups (CacheOp.lookupOp fs p :: t) = numLookups t + 1 := by
              simp [numLookups, List.filter, CacheOp.isLookup]
            rw [hrun, ih, hnum]
            have hone : (applyOp st (CacheOp.lookupOp fs p)).counters.total =
                st.counters.total + 1 := get_mmap_total st fs p
            omega
        | dropOp p =>
            have hnum : numLookups (CacheOp.dropOp p :: t) = numLookups t := by
              simp [numLookups, List.filter, CacheOp.isLookup]
            rw [hrun, ih, hnum]
            rfl

/-- Witness for C7: a cache holding one live entry for path [f] takes the hit
case: the hit counter is incremented, the cached mapping is returned even on
a file system where the path is absent, and the map is untouched. -/
theorem mmap_cache_counter_discipline_witness :
    (MmapCache.get_mmap ⟨⟨0, 0, 0⟩, [(["f"], EntryState.alive ["f"])], 1000⟩
          (fun _ => FileState.absent) ["f"]).1.counters = ⟨1, 0, 0⟩ ∧
    (MmapCache.get_mmap ⟨⟨0, 0, 0⟩, [(["f"], EntryState.alive ["f"])], 1000⟩
          (fun _ => FileState.absent) ["f"]).2 = Except.ok (some ["f"]) ∧
    (MmapCache.get_mmap ⟨⟨0, 0, 0⟩, [(["f"], EntryState.alive ["f"])], 1000⟩
          (fun _ => FileState.absent) ["f"]).1.cache =
      [(["f"], EntryState.alive ["f"])] :=
  (mmap_cache_counter_discipline.2.1 ⟨⟨0, 0, 0⟩, [(["f"], EntryState.alive ["f"])], 1000⟩
      (fun _ => FileState.absent) ["f"] (by decide)).1 ["f"] (by decide)

/-- C8: a purge pass retains exactly the entries whose weak reference still
upgrades (an entry is kept iff it was present and live), never touches the
counters, doubles the threshold when and only when the pass reclaims no
entry, and runs during a lookup exactly when the map size exceeds the
current threshold. -/
theorem mmap_cache_purge_spec :
    (∀ st : MmapCache, (st.cleanup).cache = st.cache.filter (fun e => e.2.isAlive)) ∧
    (∀ (st : MmapCache) (e : FsPath × EntryState),
        e ∈ (st.cleanup).cache ↔ e ∈ st.cache ∧ e.2.isAlive = true) ∧
    (∀ st : MmapCache, (st.cleanup).counters = st.counters) ∧
    (∀ st : MmapCache,
        (st.cleanup).purge_weak_limit =
          if (st.cleanup).cache = st.cache then st.purge_weak_limit * 2
          else st.purge_weak_limit) ∧
    (∀ (st : MmapCache) (fs : FileSys) (p : FsPath),
        st.cache.length ≤ st.purge_weak_limit →
        st.get_mmap fs p = st.get_mmap_core fs p) ∧
    (∀ (st : MmapCache) (fs : FileSys) (p : FsPath),
        st.purge_weak_limit < st.cache.length →
        st.get_mmap fs p = (st.cleanup).get_mmap_core fs p) := by
  refine ⟨fun st => rfl, ?_, fun st => rfl, ?_, get_mmap_eq_core, ?_⟩
  · intro st e
    show e ∈ st.cache.filter (fun x => x.2.isAlive) ↔ e ∈ st.cache ∧ e.2.isAlive = true
    exact List.mem_filter
  · intro st
    show (if (st.cache.filter (fun e => e.2.isAlive)).length = st.cache.length
        then st.purge_weak_limit * 2 else st.purge_weak_limit) =
      if st.cache.filter (fun e => e.2.isAlive) = st.cache
        then st.purge_weak_limit * 2 else st.purge_weak_limit
    refine if_congr ?_ rfl rfl
    constructor
    · intro h
      exact (List.filter_sublist st.cache).eq_of_length h
    · intro h
      rw [h]
  · intro st fs p h
    unfold MmapCache.get_mmap
    rw [if_pos h]

/-- Witness for C8: with an empty map and threshold 1000 a lookup is exactly
the probe body (no purge), while with one entry and threshold 0 the lookup
probes the purged state. -/
theorem mmap_cache_purge_spec_witness :
    MmapCache.get_mmap ⟨⟨0, 0, 0⟩, [], 1000⟩ (fun _ => FileState.absent) ["f"] =
      MmapCache.get_mmap_core ⟨⟨0, 0, 0⟩, [], 1000⟩ (fun _ => FileState.absent) ["f"] ∧
    MmapCache.get_mmap ⟨⟨0, 0, 0⟩, [(["g"], EntryState.dead)], 0⟩
        (fun _ => FileState.absent) ["f"] =
      MmapCache.get_mmap_core
        (MmapCache.cleanup ⟨⟨0, 0, 0⟩, [(["g"], EntryState.dead)], 0⟩)
        (fun _ => FileState.absent) ["f"] :=
  ⟨mmap_cache_purge_spec.2.2.2.2.1 ⟨⟨0, 0, 0⟩, [], 1000⟩
      (fun _ => FileState.absent) ["f"] (by decide),
    mmap_cache_purge_spec.2.2.2.2.2 ⟨⟨0, 0, 0⟩, [(["g"], EntryState.dead)], 0⟩
      (fun _ => FileState.absent) ["f"] (by decide)⟩

/-- Looking up the removed path after a removal finds nothing. -/
theorem lookupEntry_removeEntry_self (c : List (FsPath × EntryState)) (p : FsPath) :
    lookupEntry (removeEntry c p) p = none := by
  induction c with
  | nil => rfl
  | cons e t ih =>
      by_cases he : (e.1 == p) = true
      · simp [removeEntry, lookupEntry, List.filter_cons, he]
      · have he2 : (e.1 == p) = false := by
          cases h2 : (e.1 == p) with
          | true => exact absurd h2 he
          | false => rfl
        simp [removeEntry, lookupEntry, List.filter_cons, he2, List.find?_cons]

/-- Removal of one path leaves every other lookup unchanged. -/
theorem lookupEntry_removeEntry_other (c : List (FsPath × EntryState)) (p q : FsPath)
    (hq : q ≠ p) :
    lookupEntry (removeEntry c p) q = lookupEntry c q := by
  induction c with
  | nil => rfl
  | cons e t ih =>
      by_cases he : (e.1 == p) = true
      · have hep : e.1 = p := by
          exact eq_of_beq he
        have heq : (e.1 == q) = false := by
          cases h2 : (e.1 == q) with
          | true => exact absurd (hep ▸ eq_of_beq h2).symm hq
          | false => rfl
        simpa [removeEntry, lookupEntry, List.filter_cons, he, List.find?_cons, heq] using ih
      · have he2 : (e.1 == p) = false := by
          cases h2 : (e.1 == p) with
          | true => exact absurd h2 he
          | false => rfl
        by_cases heq : (e.1 == q) = true
        · simp [removeEntry, lookupEntry, List.filter_cons, he2, List.find?_cons, heq]
        · have heq2 : (e.1 == q) = false := by
            cases h2 : (e.1 == q) with
            | true => exact absurd h2 heq
            | false => rfl
          simpa [removeEntry, lookupEntry, List.filter_cons, he2, List.find?_cons, heq2]
            using ih

/-- C9: delete removes the path's cache entry eagerly — the resulting
directory state is the same whatever the file system does, so after any
outcome (success, FileDoesNotExist or I/O error) the cache holds no entry
for the resolved path; other entries, the counters and the root are
untouched, and the outcome mirrors the file system state exactly. -/
theorem s3_delete_cache_eager (dir : S3Directory) (fs : FileSys) (path : FsPath) :
    lookupEntry (dir.delete fs path).1.mmap_cache.cache (dir.resolve_path path) = none ∧
    (∀ q, q ≠ dir.resolve_path path →
        lookupEntry (dir.delete fs path).1.mmap_cache.cache q =
          lookupEntry dir.mmap_cache.cache q) ∧
    (dir.delete fs path).1.mmap_cache.counters = dir.mmap_cache.counters ∧
    (dir.delete fs path).1.root_path = dir.root_path ∧
    (∀ fs2, (dir.delete fs path).1 = (dir.delete fs2 path).1) ∧
    ((∃ n, fs (dir.resolve_path path) = FileState.file n) ↔
        (dir.delete fs path).2 = Except.ok ()) ∧
    (fs (dir.resolve_path path) = FileState.absent ↔
        (dir.delete fs path).2 = Except.error (DeleteError.fileDoesNotExist path)) ∧
    (fs (dir.resolve_path path) = FileState.ioErrState ↔
        (dir.delete fs path).2 = Except.error (DeleteError.ioError path)) := by
  have h1x : ∀ fsx : FileSys, (dir.delete fsx path).1 =
      { dir with mmap_cache := { dir.mmap_cache with
          cache := removeEntry dir.mmap_cache.cache (dir.resolve_path path) } } := by
    intro fsx
    cases h : fsx (dir.resolve_path path) <;> simp [S3Directory.delete, h]
  refine ⟨?_, ?_, ?_, ?_, ?_, ?_, ?_, ?_⟩
  · rw [h1x fs]
    exact lookupEntry_removeEntry_self dir.mmap_cache.cache (dir.resolve_path path)
  · intro q hq
    rw [h1x fs]
    exact lookupEntry_removeEntry_other dir.mmap_cache.cache (dir.resolve_path path) q hq
  · rw [h1x fs]
  · rw [h1x fs]
  · intro fs2
    rw [h1x fs, h1x fs2]
  · cases h : fs (dir.resolve_path path) <;> simp [S3Directory.delete, h]
  · cases h : fs (dir.resolve_path path) <;> simp [S3Directory.delete, h]
  · cases h : fs (dir.resolve_path path) <;> simp [S3Directory.delete, h]

/-- Witness for C9: deleting relative path [x] under root [r] on a file
system where the file is already gone empties the cache entry for [r, x],
preserves the unrelated entry [q], and reports FileDoesNotExist. -/
theorem s3_delete_cache_eager_witness :
    lookupEntry (S3Directory.delete
        ⟨["r"], ⟨⟨0, 0, 0⟩, [(["r", "x"], EntryState.alive ["r", "x"])], 1000⟩⟩
        (fun _ => FileState.absent) ["x"]).1.mmap_cache.cache ["r", "x"] = none ∧
    lookupEntry (S3Directory.delete
        ⟨["r"], ⟨⟨0, 0, 0⟩, [(["r", "x"], EntryState.alive ["r", "x"])], 1000⟩⟩
        (fun _ => FileState.absent) ["x"]).1.mmap_cache.cache ["q"] =
      lookupEntry [(["r", "x"], EntryState.alive ["r", "x"])] ["q"] ∧
    (S3Directory.delete
        ⟨["r"], ⟨⟨0, 0, 0⟩, [(["r", "x"], EntryState.alive ["r", "x"])], 1000⟩⟩
        (fun _ => FileState.absent) ["x"]).2 =
      Except.error (DeleteError.fileDoesNotExist ["x"]) :=
  ⟨(s3_delete_cache_eager
      ⟨["r"], ⟨⟨0, 0, 0⟩, [(["r", "x"], EntryState.alive ["r", "x"])], 1000⟩⟩
      (fun _ => FileState.absent) ["x"]).1,
    (s3_delete_cache_eager
      ⟨["r"], ⟨⟨0, 0, 0⟩, [(["r", "x"], EntryState.alive ["r", "x"])], 1000⟩⟩
      (fun _ => FileState.absent) ["x"]).2.1 ["q"] (by decide),
    (s3_delete_cache_eager
      ⟨["r"], ⟨⟨0, 0, 0⟩, [(["r", "x"], EntryState.alive ["r", "x"])], 1000⟩⟩
      (fun _ => FileState.absent) ["x"]).2.2.2.2.2.2.1.mp rfl⟩

/-- A successful lookup names an entry actually present in the map. -/
theorem lookupEntry_mem (c : List (FsPath × EntryState)) (p : FsPath) (v : EntryState)
    (h : lookupEntry c p = some v) : (p, v) ∈ c := by
  unfold lookupEntry at h
  cases hf : c.find? (fun e => e.1 == p) with
  | none => rw [hf] at h; cases h
  | some e =>
      rw [hf] at h
      have he : e ∈ c := List.mem_of_find?_eq_some hf
      have hp : (e.1 == p) = true := by
        have hq := List.find?_some hf
        simpa using hq
      have hp2 : e.1 = p := eq_of_beq hp
      have hv : e.2 = v := by simpa using h
      have hev : e = (p, v) := by
        cases e with
        | mk a b =>
            simp only at hp2 hv
            simp [hp2, hv]
      rw [← hev]
      exact he

/-- Cleanup never introduces a live entry for a path that had none. -/
theorem noAlive_cleanup (st : MmapCache) (p : FsPath)
    (h : ∀ m, (p, EntryState.alive m) ∉ st.cache) :
    ∀ m, (p, EntryState.alive m) ∉ (st.cleanup).cache := by
  intro m hmem
  exact h m (List.mem_of_mem_filter hmem)

/-- Probe body when the fresh open reports a zero-length file and no live
entry exists for the path: the result is Ok none and the map is unchanged
(in particular no entry is inserted), and no hit is counted. -/
theorem get_mmap_core_open_none (st : MmapCache) (fs : FileSys) (p : FsPath)
    (hopen : open_mmap fs p = Except.ok none)
    (hna : ∀ m, (p, EntryState.alive m) ∉ st.cache) :
    (st.get_mmap_core fs p).2 = Except.ok none ∧
    (st.get_mmap_core fs p).1.counters.hit = st.counters.hit ∧
    (st.get_mmap_core fs p).1.cache = st.cache := by
  cases hl : lookupEntry st.cache p with
  | some es =>
      cases es with
      | alive m => exact absurd (lookupEntry_mem st.cache p (EntryState.alive m) hl) (hna m)
      | dead =>
          unfold MmapCache.get_mmap_core
          rw [hl, hopen]
          exact ⟨rfl, rfl, rfl⟩
  | none =>
      unfold MmapCache.get_mmap_core
      rw [hl, hopen]
      exact ⟨rfl, rfl, rfl⟩

/-- Full lookup when the fresh open reports a zero-length file and no live
entry exists for the path: Ok none, no hit counted, and still no live entry
afterwards. -/
theorem get_mmap_open_none (st : MmapCache) (fs : FileSys) (p : FsPath)
    (hopen : open_mmap fs p = Except.ok none)
    (hna : ∀ m, (p, EntryState.alive m) ∉ st.cache) :
    (st.get_mmap fs p).2 = Except.ok none ∧
    (st.get_mmap fs p).1.counters.hit = st.counters.hit ∧
    (∀ m, (p, EntryState.alive m) ∉ (st.get_mmap fs p).1.cache) := by
  by_cases hc : st.purge_weak_limit < st.cache.length
  · have hg : st.get_mmap fs p = (st.cleanup).get_mmap_core fs p := by
      unfold MmapCache.get_mmap
      rw [if_pos hc]
    have hna2 : ∀ m, (p, EntryState.alive m) ∉ (st.cleanup).cache := noAlive_cleanup st p hna
    have hcore := get_mmap_core_open_none (st.cleanup) fs p hopen hna2
    rw [hg]
    refine ⟨hcore.1, hcore.2.1, ?_⟩
    intro m hm
    rw [hcore.2.2] at hm
    exact hna2 m hm
  · have hg : st.get_mmap fs p = st.get_mmap_core fs p :=
      get_mmap_eq_core st fs p (Nat.le_of_not_lt hc)
    have hcore := get_mmap_core_open_none st fs p hopen hna
    rw [hg]
    refine ⟨hcore.1, hcore.2.1, ?_⟩
    intro m hm
    rw [hcore.2.2] at hm
    exact hna m hm

/-- C10: opening a zero-length file is not an error: open_read returns an
empty anonymous source, no live entry for the path is ever present in the
cache afterwards, and a second open_read of the still-empty path again
returns the empty anonymous source through a miss — the hit counter is
unchanged by both calls. -/
theorem open_read_empty_not_error (dir : S3Directory) (fs : FileSys) (path : FsPath)
    (hfile : fs (dir.resolve_path path) = FileState.file 0)
    (hna : ∀ m, (dir.resolve_path path, EntryState.alive m) ∉ dir.mmap_cache.cache) :
    open_mmap fs (dir.resolve_path path) = Except.ok none ∧
    (dir.open_read fs path).2 = Except.ok (ReadOnlySource.anonymous []) ∧
    (∀ m, (dir.resolve_path path, EntryState.alive m) ∉
        (dir.open_read fs path).1.mmap_cache.cache) ∧
    ((dir.open_read fs path).1.open_read fs path).2 =
      Except.ok (ReadOnlySource.anonymous []) ∧
    ((dir.open_read fs path).1.open_read fs path).1.mmap_cache.counters.hit =
      (dir.open_read fs path).1.mmap_cache.counters.hit ∧
    (dir.open_read fs path).1.mmap_cache.counters.hit =
      dir.mmap_cache.counters.hit := by
  have hopen : open_mmap fs (dir.resolve_path path) = Except.ok none := by
    unfold open_mmap
    rw [hfile]
  have hstate : ∀ (d : S3Directory),
      (d.open_read fs path).1 =
        { d with mmap_cache := (d.mmap_cache.get_mmap fs (d.resolve_path path)).1 } := by
    intro d
    cases hres : (d.mmap_cache.get_mmap fs (d.resolve_path path)).2 with
    | error e => simp [S3Directory.open_read, hres]
    | ok o => cases o <;> simp [S3Directory.open_read, hres]
  have hsnd : ∀ (d : S3Directory),
      (d.mmap_cache.get_mmap fs (d.resolve_path path)).2 = Except.ok none →
      (d.open_read fs path).2 = Except.ok (ReadOnlySource.anonymous []) := by
    intro d h
    simp [S3Directory.open_read, h]
  have g1 := get_mmap_open_none dir.mmap_cache fs (dir.resolve_path path) hopen hna
  refine ⟨hopen, hsnd dir g1.1, ?_, ?_, ?_, ?_⟩
  · rw [hstate dir]
    exact g1.2.2
  · rw [hstate dir]
    exact hsnd { dir with mmap_cache := (dir.mmap_cache.get_mmap fs (dir.resolve_path path)).1 }
      (get_mmap_open_none _ fs (dir.resolve_path path) hopen g1.2.2).1
  · rw [hstate dir,
      hstate { dir with mmap_cache := (dir.mmap_cache.get_mmap fs (dir.resolve_path path)).1 }]
    exact (get_mmap_open_none _ fs (dir.resolve_path path) hopen g1.2.2).2.1
  · rw [hstate dir]
    exact g1.2.1

/-- Witness for C10: root [r], empty cache, a file system whose files are all
zero-length, relative path [e]: the first and second open_read both return
the empty anonymous source and the hit counter stays 0. -/
theorem open_read_empty_not_error_witness :
    (S3Directory.open_read ⟨["r"], ⟨⟨0, 0, 0⟩, [], 1000⟩⟩
        (fun _ => FileState.file 0) ["e"]).2 =
      Except.ok (ReadOnlySource.anonymous []) ∧
    ((S3Directory.open_read ⟨["r"], ⟨⟨0, 0, 0⟩, [], 1000⟩⟩
          (fun _ => FileState.file 0) ["e"]).1.open_read
        (fun _ => FileState.file 0) ["e"]).2 =
      Except.ok (ReadOnlySource.anonymous []) ∧
    (S3Directory.open_read ⟨["r"], ⟨⟨0, 0, 0⟩, [], 1000⟩⟩
        (fun _ => FileState.file 0) ["e"]).1.mmap_cache.counters.hit = 0 :=
  ⟨(open_read_empty_not_error ⟨["r"], ⟨⟨0, 0, 0⟩, [], 1000⟩⟩
        (fun _ => FileState.file 0) ["e"] rfl (by simp)).2.1,
    (open_read_empty_not_error ⟨["r"], ⟨⟨0, 0, 0⟩, [], 1000⟩⟩
        (fun _ => FileState.file 0) ["e"] rfl (by simp)).2.2.2.1,
    (open_read_empty_not_error ⟨["r"], ⟨⟨0, 0, 0⟩, [], 1000⟩⟩
        (fun _ => FileState.file 0) ["e"] rfl (by simp)).2.2.2.2.2⟩
